import Mathlib

/-!
# Verification of the financial-transactions pipeline

Shallow embedding of the ingestion-and-query pipeline
(`src/models.py`, `src/data_processor.py`, `src/db.py`, `src/api.py`)
together with proofs of the spec's claims about it.

Machine floats (`amount: float`) are modelled by `Rat`: every claim in scope
only compares amounts against zero, where the orderings agree.
Dataframe rows are modelled as fully typed `Transaction` records (all claims'
inputs have every required column present); nullable columns are `Option`.
-/

namespace Pipeline

/-- Canonical flat transaction row, as stored in the `transactions` table
(`db.py` `_init_db`) and produced by the flattening in `data_processor.py`.
`ip_address`/`device`/`location` are the nullable columns. -/
structure Transaction where
  transaction_id : String
  amount : Rat
  currency : String
  transaction_type : String
  status : String
  date : String
  customer_id : String
  customer_name : String
  customer_email : String
  ip_address : Option String
  device : Option String
  location : Option String
deriving Repr, DecidableEq

/-- The transaction id of a row (the dedup key). -/
def txKey (t : Transaction) : String := t.transaction_id

/-! ### String primitives

Lean core's `String.ltb`, `String.splitOn` and `String.toUpper` are defined
by well-founded recursion on iterators and do not reduce in the kernel, so
the string operations the pipeline needs are defined here structurally on
the underlying character lists. -/

/-- Strict lexicographic order on character lists (byte order on the ASCII
strings this pipeline stores), as DuckDB compares `VARCHAR` values. -/
def lexLt : List Char → List Char → Bool
  | [], [] => false
  | [], _ :: _ => true
  | _ :: _, [] => false
  | a :: as, b :: bs => decide (a < b) || (a == b && lexLt as bs)

/-- SQL `x < y` on strings. -/
def strLtB (x y : String) : Bool := lexLt x.data y.data

/-- SQL `x <= y` on strings (total order: `x ≤ y ↔ ¬ y < x`). -/
def strLeB (x y : String) : Bool := !(strLtB y x)

/-- Python `s.upper()` (ASCII; the pipeline's enum values are ASCII). -/
def strUpper (s : String) : String := ⟨s.data.map Char.toUpper⟩

/-- Python `s.split('-')`, structurally: segments between `'-'` characters
(`"".split('-') == ['']`, and a trailing `'-'` yields a trailing `''`). -/
def splitOnDash : List Char → List (List Char)
  | [] => [[]]
  | '-' :: rest => [] :: splitOnDash rest
  | c :: rest =>
    match splitOnDash rest with
    | s :: ss => (c :: s) :: ss
    | [] => [[c]]

/-! ## models.py : the Pydantic validator -/

/-- Python `int(s)` on a string consisting of an optional sign followed by
decimal digits. (CPython's `int` additionally strips surrounding whitespace
and allows `_` digit grouping; no claim exercises those inputs.) -/
def pyInt (s : List Char) : Option Int :=
  let (sign, rest) : Int × List Char :=
    match s with
    | '+' :: t => (1, t)
    | '-' :: t => (-1, t)
    | t => (1, t)
  if rest.isEmpty then none
  else if rest.all Char.isDigit then
    some (sign * (rest.foldl (fun acc c => acc * 10 + (c.toNat - 48)) (0 : Nat) : Nat))
  else none

/-- Leap-year rule used by `datetime.date`. -/
def isLeapYear (y : Int) : Bool :=
  y % 4 == 0 && (y % 100 != 0 || y % 400 == 0)

/-- Days in a month, as enforced by `datetime.date`. -/
def daysInMonth (y m : Int) : Int :=
  if m == 2 then (if isLeapYear y then 29 else 28)
  else if m == 4 || m == 6 || m == 9 || m == 11 then 30
  else 31

/-- Whether `datetime.date(y, m, d)` succeeds (MINYEAR = 1, MAXYEAR = 9999). -/
def isValidDate (y m d : Int) : Bool :=
  1 ≤ y && y ≤ 9999 && 1 ≤ m && m ≤ 12 && 1 ≤ d && d ≤ daysInMonth y m

/-- `TransactionBase.validate_date_format` (models.py:37-44):
`year, month, day = map(int, v.split('-'))` then `date(year, month, day)`;
any failure is reported as an invalid date. -/
def validate_date_format (v : String) : Bool :=
  match splitOnDash v.data with
  | [ys, ms, ds] =>
    match pyInt ys, pyInt ms, pyInt ds with
    | some y, some m, some d => isValidDate y m d
    | _, _, _ => false
  | _ => false

/-- Values of the `TransactionType` enum (models.py:6-11). -/
def transactionTypeValues : List String :=
  ["PAYMENT", "DEPOSIT", "WITHDRAWAL", "TRANSFER", "REFUND"]

/-- Values of the `TransactionStatus` enum (models.py:13-17). -/
def transactionStatusValues : List String :=
  ["COMPLETED", "PENDING", "FAILED", "CANCELLED"]

/-- Whether `TransactionFlat(**row)` succeeds on a fully populated row:
`amount` must be `> 0` (`Field(..., gt=0)`), `transaction_type` and `status`
must be *values* of their enums (Pydantic enum validation is an exact value
match, with no case folding), and `date` must pass
`validate_date_format`. -/
def validRow (t : Transaction) : Bool :=
  decide (0 < t.amount)
    && transactionTypeValues.contains t.transaction_type
    && transactionStatusValues.contains t.status
    && validate_date_format t.date

/-! ## data_processor.py : validate, clean, process files -/

/-- `validate_data` (data_processor.py:82-102): keep exactly the rows on
which the Pydantic model succeeds. -/
def validate_data (rows : List Transaction) : List Transaction :=
  rows.filter validRow

/-- The enum-column map in `clean_data`:
`lambda x: str(x).upper() if x else None`. The Python-falsy case (empty
string) maps the cell to null; `clean_data` only ever runs on validated rows,
whose enum values are non-empty, so that branch is unreachable and we keep
the string unchanged there. -/
def cleanEnum (s : String) : String :=
  if s.isEmpty then s else strUpper s

/-- `pl.col(c).fill_null("unknown")`. -/
def fillUnknown : Option String → Option String
  | none => some "unknown"
  | some s => some s

/-- The per-row part of `clean_data` (data_processor.py:104-122): fill the
nullable columns with `"unknown"` and uppercase the enum columns. -/
def cleanRow (t : Transaction) : Transaction :=
  { t with
    ip_address := fillUnknown t.ip_address
    device := fillUnknown t.device
    location := fillUnknown t.location
    transaction_type := cleanEnum t.transaction_type
    status := cleanEnum t.status }

/-- Helper for `dedupById`: drop every row whose `transaction_id` is in
`seen` or occurred earlier in the list. -/
def dedupByIdAux (seen : List String) : List Transaction → List Transaction
  | [] => []
  | r :: rs =>
    if seen.contains r.transaction_id then dedupByIdAux seen rs
    else r :: dedupByIdAux (r.transaction_id :: seen) rs

/-- `df.unique(subset=["transaction_id"])`: keep one representative per
`transaction_id` (polars `keep="any"`; we model keeping the first). -/
def dedupById (rows : List Transaction) : List Transaction :=
  dedupByIdAux [] rows

/-- `clean_data` (data_processor.py:104-128). -/
def clean_data (rows : List Transaction) : List Transaction :=
  if rows.isEmpty then rows else dedupById (rows.map cleanRow)

/-- `process_file` (data_processor.py:131-152). The read step
(`read_csv_file` / `read_json_file`, including the flattening of nested JSON
and "unsupported extension / unreadable file yields an empty frame") is IO;
it is abstracted as the function `readFile : path → rows`. The processing
applied to the rows read is validation followed by cleaning, from source. -/
def process_file (readFile : String → List Transaction) (path : String) :
    List Transaction :=
  clean_data (validate_data (readFile path))

/-- The per-file loop of `process_multiple_files`
(data_processor.py:177-184): collect the non-empty per-file frames `dfs`
and the list `successfully_processed`, in input order. -/
def runFiles (readFile : String → List Transaction) :
    List String → List (List Transaction) × List String
  | [] => ([], [])
  | f :: fs =>
    let df := process_file readFile f
    let rest := runFiles readFile fs
    if df.isEmpty then rest else (df :: rest.1, f :: rest.2)

/-- `update_processed_files` (data_processor.py:28-38): the tracker is a
persisted set; adding a batch of paths is set union. The tracker set is
modelled as a duplicate-free list, union as appending the genuinely new
paths. -/
def trackerUnion (tracker newPaths : List String) : List String :=
  tracker ++ newPaths.filter (fun f => !(tracker.contains f))

/-- `process_multiple_files` (data_processor.py:154-200), returning the
combined deduplicated frame together with the tracker state after the run.
If `incremental`, already-consumed paths are dropped first and an all-consumed
input returns empty at once; the tracker is updated (only on incremental runs,
and only when at least one file contributed) with the files that yielded a
non-empty frame; the surviving frames are concatenated and deduplicated by
`transaction_id`. -/
def process_multiple_files (readFile : String → List Transaction)
    (tracker : List String) (file_paths : List String) (incremental : Bool) :
    List Transaction × List String :=
  let fps := if incremental
    then file_paths.filter (fun f => !(tracker.contains f))
    else file_paths
  if incremental && fps.isEmpty then ([], tracker)
  else
    let step := runFiles readFile fps
    let tracker' := if incremental && !step.2.isEmpty
      then trackerUnion tracker step.2
      else tracker
    if step.1.isEmpty then ([], tracker')
    else (dedupById step.1.flatten, tracker')

/-! ## db.py : the DuckDB store -/

/-- A Python optional-string parameter as tested by `if s:`  —
`None` and the empty string are both falsy (db.py:87/90/100, api.py:70/76).
Normalizes a falsy value to `none`. -/
def pyOptStr : Option String → Option String
  | none => none
  | some s => if s.isEmpty then none else some s

/-- The `date >= ?` / `date <= ?` WHERE clauses of `get_transactions`
(db.py:87-94), after normalization. DuckDB compares VARCHAR values
lexicographically, matching `String`'s order on these ASCII strings. -/
def dateMatch (start_date end_date : Option String) (t : Transaction) : Bool :=
  (match start_date with
   | none => true
   | some s => strLeB s t.date)
  && (match end_date with
      | none => true
      | some e => strLeB t.date e)

/-- The `transaction_id > ?` cursor clause (db.py:99-102), after
normalization. -/
def cursorGt (cursor : Option String) (t : Transaction) : Bool :=
  match cursor with
  | none => true
  | some c => strLtB c t.transaction_id

/-- `ORDER BY transaction_id` (ascending). -/
def txLe (a b : Transaction) : Prop :=
  strLeB a.transaction_id b.transaction_id = true

instance : DecidableRel txLe := fun a b =>
  inferInstanceAs (Decidable (strLeB a.transaction_id b.transaction_id = true))

/-- Sort rows ascending by `transaction_id` (`ORDER BY transaction_id`).
The SQL engine's sort is modelled by insertion sort; with the primary-key
invariant (no duplicate ids) the sorted sequence is unique, so the choice of
algorithm is irrelevant. -/
def sortById (rows : List Transaction) : List Transaction :=
  rows.insertionSort txLe

/-- Result quadruple of `DuckDBHandler.get_transactions`
(`records, next_cursor, prev_cursor, total_count`). -/
structure QueryPage where
  records : List Transaction
  next_cursor : Option String
  prev_cursor : Option String
  total : Nat
deriving Repr, DecidableEq

/-- `DuckDBHandler.get_transactions` (db.py:79-122), with `queryFails`
injecting a failure of the main SELECT (the `except` path at db.py:120-122
returns `[], None, None, 0`). The COUNT query runs with the date parameters
only, before the cursor parameter is appended, so `total` ignores the
cursor. The main query fetches `LIMIT limit + 1` rows ordered by
`transaction_id`; `records` is `results[:limit]` and `next_cursor` is
`results[limit-1][0]` when the extra row is present, else `None`. -/
def get_transactionsRun (queryFails : Bool) (store : List Transaction)
    (start_date end_date cursor : Option String) (limit : Nat) : QueryPage :=
  let sd := pyOptStr start_date
  let ed := pyOptStr end_date
  let cur := pyOptStr cursor
  let total := (store.filter (dateMatch sd ed)).length
  if queryFails then ⟨[], none, none, 0⟩
  else
    let sorted := sortById (store.filter (fun t => dateMatch sd ed t && cursorGt cur t))
    let results := sorted.take (limit + 1)
    let records := results.take limit
    let next_cursor :=
      if limit < results.length
      then (results.get? (limit - 1)).map Transaction.transaction_id
      else none
    ⟨records, next_cursor, cur, total⟩

/-- `get_transactions` on a healthy store. -/
def get_transactions (store : List Transaction)
    (start_date end_date cursor : Option String) (limit : Nat) : QueryPage :=
  get_transactionsRun false store start_date end_date cursor limit

/-- The candidate rows of `store_data` that survive the duplicate filter
(db.py:49-54): rows whose `transaction_id` is not among the ids already
stored. -/
def newRecords (store df : List Transaction) : List Transaction :=
  df.filter (fun r => !((store.map txKey).contains r.transaction_id))

/-- `DuckDBHandler.store_data` (db.py:39-77), returning the store after the
call together with the returned count. `appendFails` injects a failure of
`conn.append`; the `transactions` table's PRIMARY KEY also makes the append
itself fail when the appended batch clashes with itself or the table. Any
exception is caught (db.py:75-77) and the function returns 0. -/
def store_dataRun (appendFails : Bool) (store df : List Transaction) :
    List Transaction × Nat :=
  if df.isEmpty then (store, 0)
  else
    let new_records := newRecords store df
    if new_records.isEmpty then (store, 0)
    else if appendFails
        || !(decide (((store ++ new_records).map txKey).Nodup)) then
      (store, 0)
    else (store ++ new_records, new_records.length)

/-- `store_data` on a healthy store (the spec's `insert_new`). -/
def store_data (store df : List Transaction) : List Transaction × Nat :=
  store_dataRun false store df

/-! ## api.py : the query endpoint -/

/-- Numeric value of a digit character. -/
def charVal (c : Char) : Nat := c.toNat - 48

/-- Month candidates of CPython `_strptime`'s `%m` regex
`1[0-2]|0[1-9]|[1-9]`, in alternation order, each with the unconsumed rest. -/
def strptimeMonthCands : List Char → List (Nat × List Char)
  | '1' :: c :: rest =>
    if '0' ≤ c && c ≤ '2' then [(10 + charVal c, rest), (1, c :: rest)]
    else [(1, c :: rest)]
  | '1' :: [] => [(1, [])]
  | '0' :: c :: rest =>
    if '1' ≤ c && c ≤ '9' then [(charVal c, rest)] else []
  | c :: rest =>
    if '1' ≤ c && c ≤ '9' then [(charVal c, rest)] else []
  | [] => []

/-- Day candidates of CPython `_strptime`'s `%d` regex
`3[01]|[12]\d|0[1-9]|[1-9]`, in alternation order. -/
def strptimeDayCands : List Char → List (Nat × List Char)
  | '3' :: c :: rest =>
    if c == '0' || c == '1' then [(30 + charVal c, rest), (3, c :: rest)]
    else [(3, c :: rest)]
  | '3' :: [] => [(3, [])]
  | '0' :: c :: rest =>
    if '1' ≤ c && c ≤ '9' then [(charVal c, rest)] else []
  | '1' :: c :: rest =>
    if c.isDigit then [(10 + charVal c, rest), (1, c :: rest)]
    else [(1, c :: rest)]
  | '2' :: c :: rest =>
    if c.isDigit then [(20 + charVal c, rest), (2, c :: rest)]
    else [(2, c :: rest)]
  | c :: rest =>
    if '1' ≤ c && c ≤ '9' then [(charVal c, rest)] else []
  | [] => []

/-- `datetime.strptime(s, "%Y-%m-%d")` succeeding: `%Y` is exactly four
digits, `%m`/`%d` follow the regexes above, the whole string must be
consumed (`unconverted data remains` otherwise), and the matched numbers
must form a real `datetime` date. Alternation candidates are tried with
backtracking over the rest of the pattern. -/
def pyStrptimeYmd (s : String) : Bool :=
  match s.data with
  | y1 :: y2 :: y3 :: y4 :: '-' :: rest =>
    if y1.isDigit && y2.isDigit && y3.isDigit && y4.isDigit then
      let y := ((charVal y1 * 10 + charVal y2) * 10 + charVal y3) * 10 + charVal y4
      (strptimeMonthCands rest).any (fun mc =>
        match mc.2 with
        | '-' :: rest2 =>
          (strptimeDayCands rest2).any (fun dc =>
            dc.2.isEmpty && isValidDate (y : Int) (mc.1 : Int) (dc.1 : Int))
        | _ => false)
    else false
  | _ => false

/-- Outcome of one request to the `/transactions` endpoint: a JSON page or
an HTTP error response with status and detail. -/
inductive ApiResult where
  | ok : QueryPage → ApiResult
  | httpError : Nat → String → ApiResult
deriving Repr, DecidableEq

/-- The row-shaping step of the handler (api.py:87-93):
`TransactionResponse(**t)` re-validates the row (with a `pre` validator that
uppercases the enum fields, models.py:69-73); a row that fails to convert is
dropped from the response. -/
def toResponseRow (t : Transaction) : Option Transaction :=
  let t' := { t with
    transaction_type := strUpper t.transaction_type
    status := strUpper t.status }
  if decide (0 < t'.amount)
      && transactionTypeValues.contains t'.transaction_type
      && transactionStatusValues.contains t'.status
      && validate_date_format t'.date
  then some t' else none

/-- The body of the `/transactions` handler (api.py:56-104), after FastAPI
has bound the parameters. The date checks raise
`HTTPException(400, "Invalid ..._date format. Use YYYY-MM-DD")`, but those
raises sit inside the handler's own `try`, whose blanket
`except Exception as e` re-raises `HTTPException(500, str(e))` — so the
malformed-date response actually leaves the handler with status 500,
carrying the original detail text. -/
def api_handler (store : List Transaction)
    (start_date end_date cursor : Option String) (limit : Nat) : ApiResult :=
  if (match start_date with
      | some s => !s.isEmpty && !pyStrptimeYmd s
      | none => false) then
    .httpError 500 "Invalid start_date format. Use YYYY-MM-DD"
  else if (match end_date with
           | some s => !s.isEmpty && !pyStrptimeYmd s
           | none => false) then
    .httpError 500 "Invalid end_date format. Use YYYY-MM-DD"
  else
    let q := get_transactions store start_date end_date cursor limit
    .ok ⟨q.records.filterMap toResponseRow, q.next_cursor, q.prev_cursor, q.total⟩

/-- The `/transactions` endpoint including FastAPI's binding of `limit`
(api.py:63): `Query(100, ge=1, le=1000)` — absent means 100, out-of-range
means a 422 validation error before the handler runs. -/
def api_endpoint (store : List Transaction)
    (start_date end_date cursor : Option String) (limit : Option Int) : ApiResult :=
  match limit with
  | none => api_handler store start_date end_date cursor 100
  | some l =>
    if l < 1 || 1000 < l then
      .httpError 422 "ensure limit is in the range 1..1000"
    else api_handler store start_date end_date cursor l.toNat

/-- The files an incremental run registers as consumed: the
not-yet-consumed inputs whose processed frame is non-empty. -/
def contributingFiles (readFile : String → List Transaction)
    (tracker files : List String) : List String :=
  (files.filter (fun g => !(tracker.contains g))).filter
    (fun g => !(process_file readFile g).isEmpty)

/-- The date-filtered store, sorted ascending by `transaction_id`: the full
result set a paginated scan with this date filter should traverse. -/
def filteredSorted (store : List Transaction) (sd ed : Option String) :
    List Transaction :=
  sortById (store.filter (dateMatch sd ed))

/-- The portion of the full sorted result set strictly after the cursor. -/
def remainingAfter (store : List Transaction) (sd ed c : Option String) :
    List Transaction :=
  (filteredSorted store sd ed).filter (cursorGt c)

/-- Repeatedly call `get_transactions` with the same filter and limit,
following `next_cursor` (the client loop of the pagination-completeness
property), collecting the returned pages; `fuel` bounds the number of
round-trips. -/
def paginateGo (store : List Transaction) (sd ed : Option String) (limit : Nat) :
    Nat → Option String → List Transaction
  | 0, _ => []
  | Nat.succ fuel, c =>
    let q := get_transactions store sd ed c limit
    match q.next_cursor with
    | none => q.records
    | some c2 => q.records ++ paginateGo store sd ed limit fuel (some c2)

/-- The full client-side scan: start with no cursor and follow `next_cursor`
until it is null. `store.length + 1` round-trips always suffice when
`limit ≥ 1`, since every non-final page returns `limit ≥ 1` rows. -/
def paginateAll (store : List Transaction) (sd ed : Option String)
    (limit : Nat) : List Transaction :=
  paginateGo store sd ed limit (store.length + 1) none

/-- Combined durable state of one pipeline deployment: the transaction
store plus the processed-files tracker. -/
structure IngestState where
  store : List Transaction
  tracker : List String
deriving Repr, DecidableEq

/-- One ingestion run (`run_pipeline`, main.py:34-42):
`process_multiple_files` over the downloaded files followed by
`store_data`. (`run_pipeline` returns early on an empty frame without
calling `store_data`; `store_data` on an empty frame is the identity with
count 0, so the resulting state is the same.) -/
def run_ingestion (readFile : String → List Transaction) (st : IngestState)
    (files : List String) (incremental : Bool) : IngestState × Nat :=
  let r := process_multiple_files readFile st.tracker files incremental
  let s := store_data st.store r.1
  (⟨s.1, r.2⟩, s.2)

/-- The `(year, month, day)` triple the validator extracts from an accepted
date string (models.py:40), when the string is accepted. -/
def parsedDate (v : String) : Option (Int × Int × Int) :=
  match splitOnDash v.data with
  | [ys, ms, ds] =>
    match pyInt ys, pyInt ms, pyInt ds with
    | some y, some m, some d => if isValidDate y m d then some (y, m, d) else none
    | _, _, _ => none
  | _ => none

/-! ## Sample rows used in concrete witnesses and counterexamples -/

/-- A fully valid canonical row. -/
def sampleA : Transaction :=
  ⟨"TXN-001", 5, "USD", "PAYMENT", "COMPLETED", "2024-01-05",
   "CUST-1", "Ann", "ann@example.com", none, none, none⟩

/-- A second valid row with a distinct id. -/
def sampleB : Transaction :=
  ⟨"TXN-002", 7, "EUR", "DEPOSIT", "PENDING", "2024-01-06",
   "CUST-2", "Bob", "bob@example.com", some "1.2.3.4", some "ios", some "DE"⟩

/-- A third valid row with a distinct id. -/
def sampleC : Transaction :=
  ⟨"TXN-003", 9, "GBP", "REFUND", "FAILED", "2024-02-01",
   "CUST-3", "Cyn", "cyn@example.com", none, some "web", none⟩

/-- `sampleA` with lowercase/mixed-case enum values, as in a raw file whose
enum columns are not already uppercase. -/
def sampleLowerEnums : Transaction :=
  { sampleA with transaction_type := "payment", status := "Completed" }

/-- A stored row whose `transaction_id` is the empty string — a value the
schema (VARCHAR primary key) and the validator (`transaction_id: str`) both
admit. -/
def emptyIdRow : Transaction :=
  { sampleA with transaction_id := "" }


/-! ## Order theory for the string comparison -/

theorem lexLt_irrefl : ∀ a : List Char, lexLt a a = false := by
  intro a
  induction a with
  | nil => simp [lexLt]
  | cons x xs ih => simp [lexLt, ih]

theorem lexLt_trans :
    ∀ a b c : List Char, lexLt a b = true → lexLt b c = true → lexLt a c = true := by
  intro a
  induction a with
  | nil =>
    intro b c hab hbc
    cases b with
    | nil => simp [lexLt] at hab
    | cons y ys =>
      cases c with
      | nil => simp [lexLt] at hbc
      | cons z zs => simp [lexLt]
  | cons x xs ih =>
    intro b c hab hbc
    cases b with
    | nil => simp [lexLt] at hab
    | cons y ys =>
      cases c with
      | nil => simp [lexLt] at hbc
      | cons z zs =>
        simp only [lexLt, Bool.or_eq_true, Bool.and_eq_true, decide_eq_true_eq,
          beq_iff_eq] at hab hbc ⊢
        rcases hab with h1 | ⟨he, h2⟩
        · rcases hbc with g1 | ⟨ge, g2⟩
          · exact Or.inl (lt_trans h1 g1)
          · exact Or.inl (ge ▸ h1)
        · rcases hbc with g1 | ⟨ge, g2⟩
          · subst he; exact Or.inl g1
          · exact Or.inr ⟨he.trans ge, ih ys zs h2 g2⟩

theorem lexLt_asymm :
    ∀ a b : List Char, lexLt a b = true → lexLt b a = true → False := by
  intro a b hab hba
  have := lexLt_trans a b a hab hba
  rw [lexLt_irrefl] at this
  exact Bool.false_ne_true this

theorem lexLt_connex :
    ∀ a b : List Char, lexLt a b = false → lexLt b a = false → a = b := by
  intro a
  induction a with
  | nil =>
    intro b hab _
    cases b with
    | nil => rfl
    | cons y ys => simp [lexLt] at hab
  | cons x xs ih =>
    intro b hab hba
    cases b with
    | nil => simp [lexLt] at hba
    | cons y ys =>
      simp only [lexLt, Bool.or_eq_false_iff, Bool.and_eq_false_iff,
        decide_eq_false_iff_not, not_lt, beq_eq_false_iff_ne, ne_eq] at hab hba
      have hxy : x = y := le_antisymm hba.1 hab.1
      subst hxy
      rcases hab.2 with h | h
      · exact absurd rfl h
      · rcases hba.2 with h' | h'
        · exact absurd rfl h'
        · rw [ih ys h h']

theorem strLeB_refl (x : String) : strLeB x x = true := by
  simp [strLeB, strLtB, lexLt_irrefl]

theorem strLeB_total (x y : String) : strLeB x y = true ∨ strLeB y x = true := by
  cases h : lexLt y.data x.data with
  | false => left; simp [strLeB, strLtB, h]
  | true =>
    right
    simp only [strLeB, strLtB, Bool.not_eq_true']
    cases h' : lexLt x.data y.data with
    | false => rfl
    | true => exact absurd (lexLt_asymm _ _ h' h) not_false

theorem strEq_of_data_eq {x y : String} (h : x.data = y.data) : x = y := by
  cases x
  cases y
  exact congrArg String.mk h

theorem strLeB_antisymm {x y : String}
    (hxy : strLeB x y = true) (hyx : strLeB y x = true) : x = y := by
  simp only [strLeB, strLtB, Bool.not_eq_true'] at hxy hyx
  exact strEq_of_data_eq (lexLt_connex _ _ hyx hxy)

theorem strLeB_trans {x y z : String}
    (hxy : strLeB x y = true) (hyz : strLeB y z = true) : strLeB x z = true := by
  simp only [strLeB, strLtB, Bool.not_eq_true'] at hxy hyz ⊢
  cases hc : lexLt z.data x.data with
  | false => rfl
  | true =>
    exfalso
    cases h : lexLt x.data y.data with
    | false =>
      have hxyd : x.data = y.data := lexLt_connex _ _ h hxy
      rw [hxyd] at hc
      rw [hc] at hyz
      exact Bool.noConfusion hyz
    | true =>
      have := lexLt_trans _ _ _ hc h
      rw [hyz] at this
      exact Bool.noConfusion this

theorem strLtB_of_strLeB_ne {x y : String}
    (hle : strLeB x y = true) (hne : x ≠ y) : strLtB x y = true := by
  simp only [strLeB, Bool.not_eq_true'] at hle
  cases h : strLtB x y with
  | false => exact absurd (strEq_of_data_eq (lexLt_connex _ _ h hle)) hne
  | true => rfl

theorem strLtB_trans {x y z : String}
    (hxy : strLtB x y = true) (hyz : strLtB y z = true) : strLtB x z = true :=
  lexLt_trans _ _ _ hxy hyz

theorem strLtB_asymm {x y : String}
    (hxy : strLtB x y = true) (hyx : strLtB y x = true) : False :=
  lexLt_asymm _ _ hxy hyx

theorem strLtB_irrefl (x : String) : strLtB x x = false :=
  lexLt_irrefl x.data

theorem strLeB_of_strLtB {x y : String} (h : strLtB x y = true) :
    strLeB x y = true := by
  simp only [strLeB, Bool.not_eq_true']
  cases h' : strLtB y x with
  | false => rfl
  | true => exact absurd (strLtB_asymm h h') not_false

instance : IsTotal Transaction txLe :=
  ⟨fun a b => strLeB_total a.transaction_id b.transaction_id⟩

instance : IsTrans Transaction txLe :=
  ⟨fun _ _ _ h h' => strLeB_trans h h'⟩

/-- Strict version of the sort order: `transaction_id` strictly below. -/
def txLt (a b : Transaction) : Prop :=
  strLtB a.transaction_id b.transaction_id = true

instance : DecidableRel txLt := fun a b =>
  inferInstanceAs (Decidable (strLtB a.transaction_id b.transaction_id = true))

instance : IsAntisymm Transaction txLt :=
  ⟨fun _ _ h h' => absurd (strLtB_asymm h h') not_false⟩

/-! ## Sorting lemmas for the paginated scan -/

theorem sortById_perm (l : List Transaction) : (sortById l).Perm l :=
  List.perm_insertionSort txLe l

theorem sortById_sorted (l : List Transaction) : List.Sorted txLe (sortById l) :=
  List.sorted_insertionSort txLe l

theorem keys_nodup_of_perm {l l' : List Transaction} (h : l.Perm l')
    (hnd : (l.map txKey).Nodup) : (l'.map txKey).Nodup :=
  ((h.map txKey).nodup_iff).mp hnd

theorem pairwise_txLt_of_sorted_nodup {l : List Transaction}
    (hs : List.Sorted txLe l) (hnd : (l.map txKey).Nodup) : l.Pairwise txLt := by
  have hne : l.Pairwise (fun a b => txKey a ≠ txKey b) :=
    (List.pairwise_map).mp hnd
  exact (hs.and hne).imp (fun h => strLtB_of_strLeB_ne h.1 h.2)

theorem sortById_pairwise_txLt (l : List Transaction)
    (hnd : (l.map txKey).Nodup) : (sortById l).Pairwise txLt :=
  pairwise_txLt_of_sorted_nodup (sortById_sorted l)
    (keys_nodup_of_perm (sortById_perm l).symm hnd)

theorem filter_sortById_comm (l : List Transaction)
    (hnd : (l.map txKey).Nodup) (p : Transaction → Bool) :
    sortById (l.filter p) = (sortById l).filter p := by
  apply List.eq_of_perm_of_sorted (r := txLt)
  · exact (sortById_perm (l.filter p)).trans ((sortById_perm l).symm.filter p)
  · exact sortById_pairwise_txLt (l.filter p)
      (hnd.sublist (List.Sublist.map txKey (List.filter_sublist l)))
  · exact (sortById_pairwise_txLt l hnd).sublist (List.filter_sublist _)

theorem filteredSorted_pairwise (store : List Transaction) (sd ed : Option String)
    (hnd : (store.map txKey).Nodup) :
    (filteredSorted store sd ed).Pairwise txLt :=
  sortById_pairwise_txLt _
    (hnd.sublist (List.Sublist.map txKey (List.filter_sublist store)))

theorem remainingAfter_pairwise (store : List Transaction) (sd ed c : Option String)
    (hnd : (store.map txKey).Nodup) :
    (remainingAfter store sd ed c).Pairwise txLt :=
  (filteredSorted_pairwise store sd ed hnd).sublist (List.filter_sublist _)

theorem mem_store_of_mem_remainingAfter {store : List Transaction}
    {sd ed c : Option String} {t : Transaction}
    (h : t ∈ remainingAfter store sd ed c) : t ∈ store := by
  have h1 : t ∈ filteredSorted store sd ed := List.mem_of_mem_filter h
  have h2 : t ∈ store.filter (dateMatch sd ed) :=
    ((sortById_perm _).mem_iff).mp h1
  exact List.mem_of_mem_filter h2

/-- In a strictly ascending list, the rows strictly after the key at
position `i` are exactly the rows past position `i`. -/
theorem filter_after_index (R : List Transaction) (h : R.Pairwise txLt)
    (i : Nat) (hi : i < R.length) :
    R.filter (fun t => strLtB (txKey (R.get ⟨i, hi⟩)) (txKey t)) = R.drop (i + 1) := by
  have hpw := List.pairwise_iff_get.mp h
  set k := txKey (R.get ⟨i, hi⟩) with hk
  conv_lhs => rw [← List.take_append_drop (i + 1) R, List.filter_append]
  have h1 : ((R.take (i + 1)).filter
      (fun t => strLtB k (txKey t))) = [] := by
    apply List.filter_eq_nil_iff.mpr
    intro x hx
    obtain ⟨j, hj⟩ := List.mem_iff_get.mp hx
    have hjlt : (j : Nat) < i + 1 := by
      have hj2 := j.isLt
      simp only [List.length_take] at hj2
      omega
    have hjR : (j : Nat) < R.length := by omega
    have hxj : x = R.get ⟨j, hjR⟩ := by
      rw [← hj, List.get_take']
    rcases Nat.lt_or_ge (j : Nat) i with hlt | hge
    · have hord : txLt (R.get ⟨j, hjR⟩) (R.get ⟨i, hi⟩) := hpw _ _ hlt
      subst hxj
      rw [hk]
      simp only [Bool.not_eq_true]
      cases hb : strLtB (txKey (R.get ⟨i, hi⟩)) (txKey (R.get ⟨j, hjR⟩)) with
      | false => rfl
      | true => exact absurd (strLtB_asymm hord hb) not_false
    · have hji : (j : Nat) = i := by omega
      have hxp : x = R.get ⟨i, hi⟩ := by
        subst hxj
        congr 1
        exact Fin.ext hji
      rw [hxp, hk]
      simp [strLtB_irrefl]
  have h2 : ((R.drop (i + 1)).filter
      (fun t => strLtB k (txKey t))) = R.drop (i + 1) := by
    apply List.filter_eq_self.mpr
    intro x hx
    obtain ⟨j, hj⟩ := List.mem_iff_get.mp hx
    have hlen : i + 1 + (j : Nat) < R.length := by
      have hj2 := j.isLt
      simp only [List.length_drop] at hj2
      omega
    have hxj : x = R.get ⟨i + 1 + (j : Nat), hlen⟩ := by
      rw [← hj, List.get_drop R hlen]
    have hord : txLt (R.get ⟨i, hi⟩) (R.get ⟨i + 1 + (j : Nat), hlen⟩) :=
      hpw _ _ (by simp; omega)
    rw [hxj, hk]
    exact hord
  rw [h1, h2, List.nil_append]

/-- The scan's filter-then-sort equals sorting the date-filtered store once
and then cutting at the cursor. -/
theorem scan_sorted_eq_remainingAfter (store : List Transaction)
    (hnd : (store.map txKey).Nodup) (sd ed c : Option String) :
    sortById (store.filter (fun t => dateMatch sd ed t && cursorGt c t))
      = remainingAfter store sd ed c := by
  have hsub : ((store.filter (dateMatch sd ed)).map txKey).Nodup :=
    hnd.sublist (List.Sublist.map txKey (List.filter_sublist store))
  calc
    sortById (store.filter (fun t => dateMatch sd ed t && cursorGt c t))
        = sortById (store.filter (fun t => cursorGt c t && dateMatch sd ed t)) := by
          rw [List.filter_congr (fun a _ => by rw [Bool.and_comm])]
    _ = sortById ((store.filter (dateMatch sd ed)).filter (cursorGt c)) := by
          rw [List.filter_filter]
    _ = (sortById (store.filter (dateMatch sd ed))).filter (cursorGt c) :=
          filter_sortById_comm _ hsub _
    _ = remainingAfter store sd ed c := rfl

/-- Full characterization of one `get_transactions` call on a store whose
ids are pairwise distinct: the page is the first `limit` rows of the sorted
filtered rows after the cursor, the next cursor is the id at index
`limit - 1` when more rows remain, `prev_cursor` echoes the (normalized)
request cursor, and the total counts the date-filtered rows only. -/
theorem get_transactions_page (store : List Transaction) (sd ed c : Option String)
    (L : Nat) (hnd : (store.map txKey).Nodup) :
    get_transactions store sd ed c L
      = ⟨(remainingAfter store (pyOptStr sd) (pyOptStr ed) (pyOptStr c)).take L,
         (if L < (remainingAfter store (pyOptStr sd) (pyOptStr ed) (pyOptStr c)).length
          then ((remainingAfter store (pyOptStr sd) (pyOptStr ed) (pyOptStr c)).get?
                  (L - 1)).map Transaction.transaction_id
          else none),
         pyOptStr c,
         (store.filter (dateMatch (pyOptStr sd) (pyOptStr ed))).length⟩ := by
  unfold get_transactions get_transactionsRun
  simp only [Bool.false_eq_true, if_false,
    scan_sorted_eq_remainingAfter store hnd (pyOptStr sd) (pyOptStr ed) (pyOptStr c)]
  set R := remainingAfter store (pyOptStr sd) (pyOptStr ed) (pyOptStr c) with hR
  congr 1
  · rw [List.take_take, Nat.min_eq_left (Nat.le_succ L)]
  · have hlen : (R.take (L + 1)).length = min (L + 1) R.length :=
      List.length_take _ _
    by_cases hlt : L < R.length
    · have hc1 : L < (R.take (L + 1)).length := by omega
      rw [if_pos hc1, if_pos hlt, List.get?_take (show L - 1 < L + 1 by omega)]
    · have hc1 : ¬ L < (R.take (L + 1)).length := by omega
      rw [if_neg hc1, if_neg hlt]

/-- Following the cursor reported after a full page of `L` rows leaves
exactly the rows past those `L`. -/
theorem remainingAfter_next (store : List Transaction) (sd ed : Option String)
    (hnd : (store.map txKey).Nodup) (c : Option String) (L : Nat) (hL : 1 ≤ L)
    (pivot : Transaction)
    (hpivot : (remainingAfter store sd ed c).get? (L - 1) = some pivot)
    (hlt : L < (remainingAfter store sd ed c).length) :
    remainingAfter store sd ed (some (txKey pivot))
      = (remainingAfter store sd ed c).drop L := by
  set S := filteredSorted store sd ed with hS
  set R := remainingAfter store sd ed c with hRdef
  have hL1 : L - 1 < R.length := by omega
  have hpiv : R.get ⟨L - 1, hL1⟩ = pivot := by
    have := List.get?_eq_get hL1
    rw [hpivot] at this
    exact (Option.some_injective _ this.symm)
  have hpmem : pivot ∈ R := hpiv ▸ R.get_mem _ _
  have hcur : ∀ t : Transaction,
      cursorGt (some (txKey pivot)) t = true → cursorGt c t = true := by
    intro t ht
    cases c with
    | none => rfl
    | some c0 =>
      have hp : cursorGt (some c0) pivot = true := (List.mem_filter.mp hpmem).2
      exact strLtB_trans hp ht
  have hstepA : remainingAfter store sd ed (some (txKey pivot))
      = R.filter (cursorGt (some (txKey pivot))) := by
    calc remainingAfter store sd ed (some (txKey pivot))
        = S.filter (cursorGt (some (txKey pivot))) := rfl
      _ = S.filter (fun t => cursorGt (some (txKey pivot)) t && cursorGt c t) := by
          apply List.filter_congr
          intro t _
          cases hb : cursorGt (some (txKey pivot)) t with
          | false => rfl
          | true => simp [hcur t hb]
      _ = (S.filter (cursorGt c)).filter (cursorGt (some (txKey pivot))) := by
          rw [List.filter_filter]
      _ = R.filter (cursorGt (some (txKey pivot))) := rfl
  have hpw : R.Pairwise txLt := remainingAfter_pairwise store sd ed c hnd
  have hidx := filter_after_index R hpw (L - 1) hL1
  have hL' : L - 1 + 1 = L := by omega
  rw [hL', hpiv] at hidx
  rw [hstepA]
  exact hidx

/-- A normalized non-empty cursor string stays itself under `pyOptStr`. -/
theorem pyOptStr_some_of_ne {s : String} (h : s ≠ "") :
    pyOptStr (some s) = some s := by
  have hb : s.isEmpty = false := by
    cases hb : s.isEmpty with
    | false => rfl
    | true => exact absurd ((String.isEmpty_iff s).mp hb) h
  simp [pyOptStr, hb]

/-- The client pagination loop, with enough fuel and a normalized cursor,
returns exactly the sorted filtered rows after the cursor. -/
theorem paginateGo_eq (store : List Transaction) (sd ed : Option String) (L : Nat)
    (hL : 1 ≤ L) (hnd : (store.map txKey).Nodup)
    (hne : ∀ t ∈ store, txKey t ≠ "") :
    ∀ (fuel : Nat) (c : Option String), pyOptStr c = c →
      (remainingAfter store (pyOptStr sd) (pyOptStr ed) c).length ≤ fuel →
      paginateGo store sd ed L fuel c
        = remainingAfter store (pyOptStr sd) (pyOptStr ed) c := by
  intro fuel
  induction fuel with
  | zero =>
    intro c _ hf
    have hnil : remainingAfter store (pyOptStr sd) (pyOptStr ed) c = [] :=
      List.length_eq_zero.mp (Nat.le_zero.mp hf)
    simp [paginateGo, hnil]
  | succ fuel ih =>
    intro c hc hf
    have hpage := get_transactions_page store sd ed c L hnd
    rw [hc] at hpage
    set R := remainingAfter store (pyOptStr sd) (pyOptStr ed) c with hR
    by_cases hlt : L < R.length
    · have hL1 : L - 1 < R.length := by omega
      obtain ⟨pivot, hpivot⟩ : ∃ p, R.get? (L - 1) = some p :=
        ⟨_, List.get?_eq_get hL1⟩
      have hpmem : pivot ∈ store :=
        mem_store_of_mem_remainingAfter (List.get?_mem hpivot)
      have hkne : txKey pivot ≠ "" := hne _ hpmem
      have hnext := remainingAfter_next store (pyOptStr sd) (pyOptStr ed) hnd c L hL
        pivot hpivot hlt
      rw [← hR] at hnext
      have hlen' : (remainingAfter store (pyOptStr sd) (pyOptStr ed)
          (some (txKey pivot))).length ≤ fuel := by
        rw [hnext, List.length_drop]
        omega
      have hih := ih (some (txKey pivot)) (pyOptStr_some_of_ne hkne) hlen'
      simp only [paginateGo, hpage, if_pos hlt, hpivot, Option.map_some']
      simp only [txKey] at hih hnext
      rw [hih, hnext, List.take_append_drop]
    · simp only [paginateGo, hpage, if_neg hlt]
      exact List.take_of_length_le (by omega)

/-! ## store_data lemmas -/

theorem newRecords_keys_nodup (store df : List Transaction)
    (hdf : (df.map txKey).Nodup) : ((newRecords store df).map txKey).Nodup :=
  hdf.sublist (List.Sublist.map txKey (List.filter_sublist df))

theorem newRecords_keys_fresh (store df : List Transaction) :
    ∀ x ∈ (newRecords store df).map txKey, x ∉ store.map txKey := by
  intro x hx
  simp only [newRecords, List.mem_map, List.mem_filter] at hx
  obtain ⟨r, ⟨_, hpred⟩, rfl⟩ := hx
  have hc : (store.map txKey).contains r.transaction_id = false := by
    simpa using hpred
  simpa [txKey] using hc

theorem store_append_new_nodup (store df : List Transaction)
    (hs : (store.map txKey).Nodup) (hdf : (df.map txKey).Nodup) :
    (((store ++ newRecords store df).map txKey).Nodup) := by
  rw [List.map_append]
  refine hs.append (newRecords_keys_nodup store df hdf) ?_
  rw [List.disjoint_right]
  exact fun a ha => newRecords_keys_fresh store df a ha

/-- Content of claim C1, as a reusable lemma: on key-distinct inputs
`store_data` appends exactly the new-id rows and returns their count. -/
theorem store_data_spec (store df : List Transaction)
    (hs : (store.map txKey).Nodup) (hdf : (df.map txKey).Nodup) :
    store_data store df
      = (store ++ newRecords store df, (newRecords store df).length)
    ∧ (((store ++ newRecords store df).map txKey).Nodup) := by
  refine ⟨?_, store_append_new_nodup store df hs hdf⟩
  unfold store_data store_dataRun
  simp only [Bool.false_or]
  by_cases h0 : df.isEmpty
  · have hnil : df = [] := by simpa using h0
    subst hnil
    simp [newRecords]
  · simp only [h0, if_false, Bool.false_eq_true]
    by_cases h1 : (newRecords store df).isEmpty
    · have hnil : newRecords store df = [] := by simpa using h1
      simp [h0, hnil]
    · have hn : (store.map txKey ++ (newRecords store df).map txKey).Nodup := by
        rw [← List.map_append]
        exact store_append_new_nodup store df hs hdf
      simp [h0, h1, hn]

/-! ## Ingestion-pipeline lemmas -/

theorem store_data_nil (store : List Transaction) :
    store_data store [] = (store, 0) := rfl

theorem dedupByIdAux_nodup (l : List Transaction) : ∀ seen : List String,
    ((dedupByIdAux seen l).map txKey).Nodup
    ∧ ∀ k ∈ (dedupByIdAux seen l).map txKey, k ∉ seen := by
  induction l with
  | nil => intro seen; simp [dedupByIdAux]
  | cons r rs ih =>
    intro seen
    cases h : seen.contains r.transaction_id with
    | true =>
      have hm : r.transaction_id ∈ seen := by simpa using h
      simpa [dedupByIdAux, h, hm] using ih seen
    | false =>
      have hm : r.transaction_id ∉ seen := by simpa using h
      have ihr := ih (r.transaction_id :: seen)
      simp only [dedupByIdAux, h, Bool.false_eq_true, if_false, List.map_cons,
        List.nodup_cons]
      refine ⟨⟨?_, ihr.1⟩, ?_⟩
      · intro hmem
        have h2 := ihr.2 _ hmem
        simp [txKey] at h2
      · intro k hk
        rcases List.mem_cons.mp hk with hk1 | hk2
        · subst hk1
          simpa [txKey] using hm
        · have h2 := ihr.2 k hk2
          intro hc
          exact h2 (List.mem_cons_of_mem _ hc)


theorem dedupById_keys_nodup (l : List Transaction) :
    ((dedupById l).map txKey).Nodup :=
  (dedupByIdAux_nodup l []).1

/-- The per-file loop collects exactly the files with a non-empty processed
frame, with their frames, in order. -/
theorem runFiles_eq (readFile : String → List Transaction) (fps : List String) :
    runFiles readFile fps
      = ((fps.filter (fun f => !(process_file readFile f).isEmpty)).map
           (process_file readFile),
         fps.filter (fun f => !(process_file readFile f).isEmpty)) := by
  induction fps with
  | nil => rfl
  | cons f fs ih =>
    cases h : (process_file readFile f).isEmpty with
    | true => simp [runFiles, List.filter_cons, h, ih]
    | false => simp [runFiles, List.filter_cons, h, ih]

theorem mem_trackerUnion {tracker newPaths : List String} {f : String} :
    f ∈ trackerUnion tracker newPaths ↔ f ∈ tracker ∨ f ∈ newPaths := by
  simp only [trackerUnion, List.mem_append, List.mem_filter, Bool.not_eq_true',
    ← Bool.not_eq_true]
  constructor
  · rintro (h | ⟨h, _⟩)
    · exact Or.inl h
    · exact Or.inr h
  · rintro (h | h)
    · exact Or.inl h
    · by_cases ht : f ∈ tracker
      · exact Or.inl ht
      · refine Or.inr ⟨h, ?_⟩
        simpa using ht

theorem pmf_tracker_eq (readFile : String → List Transaction)
    (tracker files : List String) :
    (process_multiple_files readFile tracker files true).2
      = if (contributingFiles readFile tracker files).isEmpty then tracker
        else trackerUnion tracker (contributingFiles readFile tracker files) := by
  unfold process_multiple_files
  dsimp only
  simp only [eq_self_iff_true, if_true]
  set fps := files.filter (fun g => !(tracker.contains g)) with hfps
  have hsp : (runFiles readFile fps).2
      = contributingFiles readFile tracker files := by
    rw [runFiles_eq, contributingFiles, ← hfps]
  by_cases hemp : fps.isEmpty = true
  · have hnil : fps = [] := by simpa using hemp
    have hcnil : contributingFiles readFile tracker files = [] := by
      rw [contributingFiles, ← hfps, hnil]
      rfl
    rw [if_pos (by simp [hemp] : (true && fps.isEmpty) = true), hcnil]
    rfl
  · rw [if_neg (by simpa using hemp : ¬ (true && fps.isEmpty) = true)]
    by_cases hspe : (contributingFiles readFile tracker files).isEmpty = true
    · have hnil2 : (runFiles readFile fps).2 = [] := by
        rw [hsp]
        simpa using hspe
      rw [if_pos hspe]
      cases hdfs : ((runFiles readFile fps).1).isEmpty <;>
        simp [hdfs, hnil2]
    · have hb : (contributingFiles readFile tracker files).isEmpty = false := by
        simpa using hspe
      rw [if_neg hspe]
      cases hdfs : ((runFiles readFile fps).1).isEmpty <;>
        simp [hdfs, hsp, hb]

theorem mem_contributingFiles {readFile : String → List Transaction}
    {tracker files : List String} {f : String} :
    f ∈ contributingFiles readFile tracker files
      ↔ f ∈ files ∧ f ∉ tracker ∧ process_file readFile f ≠ [] := by
  simp only [contributingFiles, List.mem_filter]
  simp [List.isEmpty_iff, and_assoc]

/-- Tracker contents after an incremental run: the old consumed set plus
exactly the input files that were not yet consumed and yielded at least one
surviving record. -/
theorem pmf_tracker_incremental (readFile : String → List Transaction)
    (tracker files : List String) (f : String) :
    f ∈ (process_multiple_files readFile tracker files true).2
      ↔ f ∈ tracker
        ∨ (f ∈ files ∧ f ∉ tracker ∧ process_file readFile f ≠ []) := by
  rw [pmf_tracker_eq]
  by_cases hspe : (contributingFiles readFile tracker files).isEmpty = true
  · have hnil : contributingFiles readFile tracker files = [] := by
      simpa using hspe
    rw [if_pos hspe]
    constructor
    · exact Or.inl
    · rintro (h | ⟨h1, h2, h3⟩)
      · exact h
      · exfalso
        have hmem : f ∈ contributingFiles readFile tracker files :=
          mem_contributingFiles.mpr ⟨h1, h2, h3⟩
        simp [hnil] at hmem
  · rw [if_neg hspe, mem_trackerUnion, mem_contributingFiles]

/-- A non-incremental run never touches the tracker. -/
theorem pmf_tracker_nonincremental (readFile : String → List Transaction)
    (tracker files : List String) :
    (process_multiple_files readFile tracker files false).2 = tracker := by
  unfold process_multiple_files
  simp only [Bool.false_and, Bool.false_eq_true, if_false]
  cases h : ((runFiles readFile files).1).isEmpty <;> simp [h]

/-- The combined frame of a run is either empty or a dedup pass's output. -/
theorem pmf_fst_cases (readFile : String → List Transaction)
    (tracker files : List String) (incremental : Bool) :
    (process_multiple_files readFile tracker files incremental).1 = []
    ∨ ∃ l, (process_multiple_files readFile tracker files incremental).1
        = dedupById l := by
  unfold process_multiple_files
  dsimp only
  repeat' split
  all_goals first | exact Or.inl rfl | exact Or.inr ⟨_, rfl⟩

/-- The ids in the frame `process_multiple_files` hands to the store are
pairwise distinct (the cross-file dedup pass). -/
theorem pmf_keys_nodup (readFile : String → List Transaction)
    (tracker files : List String) (incremental : Bool) :
    (((process_multiple_files readFile tracker files incremental).1).map
      txKey).Nodup := by
  rcases pmf_fst_cases readFile tracker files incremental with h | ⟨l, h⟩
  · simp [h]
  · rw [h]
    exact dedupById_keys_nodup l

/-- Re-running an incremental ingestion on the same file list is a no-op:
every file that could still contribute was either consumed by the first run
or yields an empty frame. -/
theorem pmf_second_run (readFile : String → List Transaction)
    (tracker files : List String) :
    process_multiple_files readFile
        (process_multiple_files readFile tracker files true).2 files true
      = ([], (process_multiple_files readFile tracker files true).2) := by
  set t1 := (process_multiple_files readFile tracker files true).2 with ht1
  have hA : ∀ f ∈ files, f ∉ t1 → process_file readFile f = [] := by
    intro f hf hnot
    by_cases hft : f ∈ tracker
    · exact absurd
        ((pmf_tracker_incremental readFile tracker files f).mpr (Or.inl hft)) hnot
    · by_cases hpe : process_file readFile f = []
      · exact hpe
      · exact absurd ((pmf_tracker_incremental readFile tracker files f).mpr
          (Or.inr ⟨hf, hft, hpe⟩)) hnot
  unfold process_multiple_files
  dsimp only
  simp only [eq_self_iff_true, if_true]
  set fps2 := files.filter (fun g => !(t1.contains g)) with hfps2
  have hall : ∀ f ∈ fps2, process_file readFile f = [] := by
    intro f hf
    rw [hfps2, List.mem_filter] at hf
    refine hA f hf.1 ?_
    simpa using hf.2
  have hrun : runFiles readFile fps2 = ([], []) := by
    rw [runFiles_eq]
    have hfn : fps2.filter (fun f => !(process_file readFile f).isEmpty) = [] := by
      apply List.filter_eq_nil_iff.mpr
      intro a ha
      simp [hall a ha]
    rw [hfn]
    rfl
  by_cases hemp : fps2.isEmpty = true
  · rw [if_pos (by simp [hemp] : (true && fps2.isEmpty) = true)]
  · rw [if_neg (by simpa using hemp : ¬ (true && fps2.isEmpty) = true), hrun]
    simp

/-- An ingestion run is a no-op when the run's file scan contributes
nothing. -/
theorem run_ingestion_noop (readFile : String → List Transaction)
    (files : List String) (s2 : IngestState)
    (hp : process_multiple_files readFile s2.tracker files true
        = ([], s2.tracker)) :
    run_ingestion readFile s2 files true = (s2, 0) := by
  cases s2 with
  | mk store2 tracker2 =>
    unfold run_ingestion
    rw [hp]
    rfl

/-- C1: `store_data` appends exactly the candidate rows whose
`transaction_id` is not already stored (`newRecords`), keeps the stored
rows untouched as a prefix (no overwrite, no error for duplicate ids),
returns the number of rows appended — so on a batch of k already-stored ids
and m new ids it appends exactly the m new rows — and the stored ids remain
pairwise distinct. -/
theorem store_data_appends_exactly_new (store df : List Transaction)
    (hs : (store.map txKey).Nodup) (hdf : (df.map txKey).Nodup) :
    store_data store df
      = (store ++ newRecords store df, (newRecords store df).length)
    ∧ (((store ++ newRecords store df).map txKey).Nodup) :=
  store_data_spec store df hs hdf

/-- Witness for C1 at a concrete store and batch: one stored row, a batch
with one duplicate id and two new ids — exactly the two new rows are
appended. -/
theorem store_data_appends_exactly_new_witness :
    (([sampleA].map txKey).Nodup ∧ (([sampleB, sampleA, sampleC]).map txKey).Nodup)
    ∧ (store_data [sampleA] [sampleB, sampleA, sampleC]
        = ([sampleA] ++ newRecords [sampleA] [sampleB, sampleA, sampleC],
           (newRecords [sampleA] [sampleB, sampleA, sampleC]).length)
       ∧ (([sampleA] ++ newRecords [sampleA] [sampleB, sampleA, sampleC]).map txKey).Nodup) :=
  ⟨⟨by decide, by decide⟩,
   store_data_appends_exactly_new [sampleA] [sampleB, sampleA, sampleC]
     (by decide) (by decide)⟩

/-- C4 (code_bug): the claim says a record whose `transaction_type`/`status`
match the enums case-insensitively (e.g. `"payment"`, `"Completed"`) is
accepted and stored uppercase. The code runs `validate_data` (exact-value
Pydantic enum match) *before* `clean_data` uppercases, so such a record is
dropped as invalid: the same row is accepted once its enums are already
uppercase, and then the stored values are the canonical uppercase ones. -/
theorem case_insensitive_enums_rejected_by_pipeline :
    validate_data [sampleLowerEnums] = []
    ∧ process_file (fun _ => [sampleLowerEnums]) "input.csv" = []
    ∧ process_file (fun _ => [sampleA]) "input.csv" = [cleanRow sampleA]
    ∧ (cleanRow sampleLowerEnums).transaction_type = "PAYMENT"
    ∧ (cleanRow sampleLowerEnums).status = "COMPLETED" := by
  decide

/-- C7 (code_bug): a malformed `start_date`/`end_date` is answered with
HTTP 500, not 400 — the `HTTPException(400, ...)` raised for it sits inside
the handler's own `try`, whose blanket `except Exception` re-raises it as
`HTTPException(500, str(e))`. The limit bounds (1..1000, default 100) are
enforced by FastAPI before the handler. -/
theorem malformed_date_yields_500_not_400 :
    api_endpoint [] (some "2024-13-01") none none none
      = .httpError 500 "Invalid start_date format. Use YYYY-MM-DD"
    ∧ api_endpoint [] none (some "2024-02-30") none none
      = .httpError 500 "Invalid end_date format. Use YYYY-MM-DD"
    ∧ api_endpoint [] none none none (some 0)
      = .httpError 422 "ensure limit is in the range 1..1000"
    ∧ api_endpoint [] none none none (some 1001)
      = .httpError 422 "ensure limit is in the range 1..1000"
    ∧ api_endpoint [] none none none none = .ok ⟨[], none, none, 0⟩ := by
  decide

/-- C8 (counterexample): a failing append and a failing scan are *not*
surfaced as errors: the failing `store_data` call returns exactly the same
normal-looking result as a successful call that had nothing to store, and
the failing `get_transactions` call returns exactly the same normal-looking
result as a successful scan of an empty store. -/
theorem store_failure_indistinguishable_from_success :
    store_dataRun true [sampleA] [sampleB] = ([sampleA], 0)
    ∧ store_dataRun false [sampleA] [] = ([sampleA], 0)
    ∧ get_transactionsRun true [sampleA] none none none 5
      = get_transactionsRun false [] none none none 5 := by
  decide

/-- C8 (amended): `store_data` catches any append failure, logs it, and
returns 0 with the store left exactly as it was (already-committed rows
intact), and `get_transactions` catches any scan failure and returns an
empty page with null cursors and total 0; neither operation propagates the
failure to its caller, so an ingestion run continues rather than aborts. -/
theorem store_failure_swallowed (store df : List Transaction)
    (sd ed c : Option String) (L : Nat) :
    store_dataRun true store df = (store, 0)
    ∧ get_transactionsRun true store sd ed c L = ⟨[], none, none, 0⟩ := by
  constructor
  · simp only [store_dataRun, Bool.true_or]
    split_ifs <;> rfl
  · rfl

/-- C10: with `limit ≥ 1`, `get_transactions` returns at most `limit`
records; when it reports a `next_cursor` the index `limit - 1` used to
compute it is in bounds (it names the id of the last returned record), and
on a short result set (fewer than `limit` rows) no cursor is produced — the
function cannot fail on the `results[limit-1]` access. -/
theorem get_transactions_bounded_and_index_safe (store : List Transaction)
    (sd ed c : Option String) (L : Nat) (hL : 1 ≤ L) :
    (get_transactions store sd ed c L).records.length ≤ L
    ∧ ((get_transactions store sd ed c L).records.length < L →
        (get_transactions store sd ed c L).next_cursor = none)
    ∧ (∀ x, (get_transactions store sd ed c L).next_cursor = some x →
        ∃ r, (get_transactions store sd ed c L).records.get? (L - 1) = some r
          ∧ txKey r = x) := by
  unfold get_transactions get_transactionsRun
  simp only [Bool.false_eq_true, if_false]
  set full := sortById
    (store.filter fun t =>
      dateMatch (pyOptStr sd) (pyOptStr ed) t && cursorGt (pyOptStr c) t) with hfull
  refine ⟨?_, ?_, ?_⟩
  · have h1 := List.length_take L (full.take (L + 1))
    omega
  · intro h
    by_cases hlt : L < (full.take (L + 1)).length
    · exfalso
      have h1 := List.length_take L (full.take (L + 1))
      omega
    · exact if_neg hlt
  · intro x hx
    by_cases hlt : L < (full.take (L + 1)).length
    · rw [if_pos hlt] at hx
      have hL1 : L - 1 < (full.take (L + 1)).length := by omega
      have hget : (full.take (L + 1)).get? (L - 1)
          = some ((full.take (L + 1)).get ⟨L - 1, hL1⟩) := List.get?_eq_get hL1
      rw [hget, Option.map_some'] at hx
      refine ⟨(full.take (L + 1)).get ⟨L - 1, hL1⟩, ?_, ?_⟩
      · rw [List.get?_take (show L - 1 < L by omega)]
        exact hget
      · exact Option.some_injective _ hx
    · rw [if_neg hlt] at hx
      exact Option.noConfusion hx

/-- Witness for C10 at a concrete query: a two-row store scanned with
`limit = 1`. -/
theorem get_transactions_bounded_and_index_safe_witness :
    1 ≤ 1
    ∧ ((get_transactions [sampleA, sampleB] none none none 1).records.length ≤ 1
       ∧ ((get_transactions [sampleA, sampleB] none none none 1).records.length < 1 →
           (get_transactions [sampleA, sampleB] none none none 1).next_cursor = none)
       ∧ (∀ x, (get_transactions [sampleA, sampleB] none none none 1).next_cursor = some x →
           ∃ r, (get_transactions [sampleA, sampleB] none none none 1).records.get? (1 - 1) = some r
             ∧ txKey r = x)) :=
  ⟨le_refl 1,
   get_transactions_bounded_and_index_safe [sampleA, sampleB] none none none 1 (le_refl 1)⟩

/-- C2 (counterexample): pagination does not terminate (and duplicates
records) when a stored `transaction_id` is the empty string: the first page
reports `next_cursor = ""`, but `db.py`'s `if cursor:` treats `""` as "no
cursor", so following that cursor returns the identical page with the same
non-null cursor forever — the scan never reaches a null cursor and each
round trip repeats the record. -/
theorem pagination_diverges_on_empty_string_id :
    (get_transactions [emptyIdRow, sampleA] none none none 1).records = [emptyIdRow]
    ∧ (get_transactions [emptyIdRow, sampleA] none none none 1).next_cursor = some ""
    ∧ get_transactions [emptyIdRow, sampleA] none none (some "") 1
        = get_transactions [emptyIdRow, sampleA] none none none 1
    ∧ paginateAll [emptyIdRow, sampleA] none none 1
        = [emptyIdRow, emptyIdRow, emptyIdRow]
    ∧ ¬ (paginateAll [emptyIdRow, sampleA] none none 1).Perm
        ([emptyIdRow, sampleA].filter (dateMatch none none)) := by
  decide

/-- C2 (amended): on a store with pairwise-distinct, non-empty
`transaction_id`s and `limit = L ≥ 1`, repeatedly calling
`get_transactions` and following `next_cursor` until it is null yields
exactly the records matching the date filter (a permutation of the filtered
store), with pairwise strictly ascending `transaction_id`s and hence no
duplicates. -/
theorem pagination_complete (store : List Transaction) (sd ed : Option String)
    (L : Nat) (hL : 1 ≤ L) (hnd : (store.map txKey).Nodup)
    (hne : ∀ t ∈ store, txKey t ≠ "") :
    (paginateAll store sd ed L).Perm
        (store.filter (dateMatch (pyOptStr sd) (pyOptStr ed)))
    ∧ ((paginateAll store sd ed L).map txKey).Pairwise (fun a b => strLtB a b = true)
    ∧ ((paginateAll store sd ed L).map txKey).Nodup := by
  have hren : remainingAfter store (pyOptStr sd) (pyOptStr ed) none
      = filteredSorted store (pyOptStr sd) (pyOptStr ed) :=
    List.filter_eq_self.mpr (fun t _ => rfl)
  have hfuel : (remainingAfter store (pyOptStr sd) (pyOptStr ed) none).length
      ≤ store.length + 1 := by
    rw [hren]
    have h1 : (filteredSorted store (pyOptStr sd) (pyOptStr ed)).length
        = (store.filter (dateMatch (pyOptStr sd) (pyOptStr ed))).length :=
      (sortById_perm _).length_eq
    have h2 := List.length_filter_le (dateMatch (pyOptStr sd) (pyOptStr ed)) store
    omega
  have hmain : paginateAll store sd ed L
      = filteredSorted store (pyOptStr sd) (pyOptStr ed) := by
    rw [paginateAll, paginateGo_eq store sd ed L hL hnd hne (store.length + 1) none rfl hfuel,
      hren]
  have hpw : (filteredSorted store (pyOptStr sd) (pyOptStr ed)).Pairwise txLt :=
    filteredSorted_pairwise store (pyOptStr sd) (pyOptStr ed) hnd
  rw [hmain]
  refine ⟨sortById_perm _, ?_, ?_⟩
  · exact (List.pairwise_map).mpr hpw
  · refine ((List.pairwise_map).mpr (hpw.imp ?_))
    intro a b hab heq
    simp only [txKey] at heq
    simp only [txLt, heq, strLtB_irrefl] at hab
    exact Bool.noConfusion hab

/-- Witness for C2's amended theorem at a concrete store: two rows (listed
out of order) paged with `limit = 1`. -/
theorem pagination_complete_witness :
    (1 ≤ 1 ∧ (([sampleB, sampleA].map txKey).Nodup)
      ∧ (∀ t ∈ [sampleB, sampleA], txKey t ≠ ""))
    ∧ ((paginateAll [sampleB, sampleA] none none 1).Perm
          ([sampleB, sampleA].filter (dateMatch (pyOptStr none) (pyOptStr none)))
       ∧ ((paginateAll [sampleB, sampleA] none none 1).map txKey).Pairwise
          (fun a b => strLtB a b = true)
       ∧ ((paginateAll [sampleB, sampleA] none none 1).map txKey).Nodup) :=
  ⟨⟨le_refl 1, by decide, by decide⟩,
   pagination_complete [sampleB, sampleA] none none 1 (le_refl 1)
     (by decide) (by decide)⟩

/-- C5: one `get_transactions` call on a store with the primary-key
invariant: the reported total is the number of rows matching the date
filter alone (the same expression for every cursor); when more than `L`
rows remain past the cursor the page is exactly the first `L` of them and
`next_cursor` is the id of the `L`-th returned row (the fetched extra row
is discarded); otherwise the whole remainder is returned and `next_cursor`
is null. -/
theorem get_transactions_page_shape (store : List Transaction)
    (sd ed c : Option String) (L : Nat) (hL : 1 ≤ L)
    (hnd : (store.map txKey).Nodup) :
    (get_transactions store sd ed c L).total
      = (store.filter (dateMatch (pyOptStr sd) (pyOptStr ed))).length
    ∧ (L < (remainingAfter store (pyOptStr sd) (pyOptStr ed) (pyOptStr c)).length →
        (get_transactions store sd ed c L).records
          = (remainingAfter store (pyOptStr sd) (pyOptStr ed) (pyOptStr c)).take L
        ∧ (get_transactions store sd ed c L).records.length = L
        ∧ (get_transactions store sd ed c L).next_cursor
          = ((get_transactions store sd ed c L).records.get? (L - 1)).map
              Transaction.transaction_id)
    ∧ ((remainingAfter store (pyOptStr sd) (pyOptStr ed) (pyOptStr c)).length ≤ L →
        (get_transactions store sd ed c L).records
          = remainingAfter store (pyOptStr sd) (pyOptStr ed) (pyOptStr c)
        ∧ (get_transactions store sd ed c L).next_cursor = none) := by
  rw [get_transactions_page store sd ed c L hnd]
  set R := remainingAfter store (pyOptStr sd) (pyOptStr ed) (pyOptStr c) with hR
  refine ⟨rfl, ?_, ?_⟩
  · intro hlt
    refine ⟨rfl, ?_, ?_⟩
    · rw [List.length_take]
      omega
    · rw [if_pos hlt, List.get?_take (show L - 1 < L by omega)]
  · intro hle
    have hnlt : ¬ L < R.length := by omega
    exact ⟨List.take_of_length_le hle, if_neg hnlt⟩

/-- Witness for C5 at a concrete query: three rows, `limit = 2`, both with
and without a cursor. -/
theorem get_transactions_page_shape_witness :
    (1 ≤ 2 ∧ (([sampleC, sampleA, sampleB].map txKey).Nodup))
    ∧ ((get_transactions [sampleC, sampleA, sampleB] none none none 2).total
        = ([sampleC, sampleA, sampleB].filter
            (dateMatch (pyOptStr none) (pyOptStr none))).length
       ∧ (2 < (remainingAfter [sampleC, sampleA, sampleB] (pyOptStr none)
              (pyOptStr none) (pyOptStr none)).length →
           (get_transactions [sampleC, sampleA, sampleB] none none none 2).records
             = (remainingAfter [sampleC, sampleA, sampleB] (pyOptStr none)
                 (pyOptStr none) (pyOptStr none)).take 2
           ∧ (get_transactions [sampleC, sampleA, sampleB] none none none 2).records.length = 2
           ∧ (get_transactions [sampleC, sampleA, sampleB] none none none 2).next_cursor
             = ((get_transactions [sampleC, sampleA, sampleB] none none none 2).records.get?
                 (2 - 1)).map Transaction.transaction_id)
       ∧ ((remainingAfter [sampleC, sampleA, sampleB] (pyOptStr none)
              (pyOptStr none) (pyOptStr none)).length ≤ 2 →
           (get_transactions [sampleC, sampleA, sampleB] none none none 2).records
             = remainingAfter [sampleC, sampleA, sampleB] (pyOptStr none)
                 (pyOptStr none) (pyOptStr none)
           ∧ (get_transactions [sampleC, sampleA, sampleB] none none none 2).next_cursor
             = none)) :=
  ⟨⟨by omega, by decide⟩,
   get_transactions_page_shape [sampleC, sampleA, sampleB] none none none 2
     (by omega) (by decide)⟩

/-- C9 (code_bug): the validator accepts `"2024-1-5"` (January 5, 2024 —
`int("1")` parses unpadded fields) and stores it verbatim, so stored dates
are not all in zero-padded `YYYY-MM-DD` form, and the store's
string-lexicographic range comparison disagrees with calendar order: the
scan's `date >= "2024-02-01"` filter includes the January date. -/
theorem unpadded_date_accepted_breaks_lex_order :
    validate_date_format "2024-1-5" = true
    ∧ parsedDate "2024-1-5" = some (2024, 1, 5)
    ∧ parsedDate "2024-02-01" = some (2024, 2, 1)
    ∧ dateMatch (some "2024-02-01") none { sampleA with date := "2024-1-5" } = true := by
  decide

/-- C6 (counterexample): with `incremental=false`, a file that contributes
a surviving record is still not registered in the tracker — the tracker
update (data_processor.py:187) runs only on incremental runs, so the claim's
"for every value of the incremental flag" fails. -/
theorem nonincremental_contributing_file_not_registered :
    (process_multiple_files (fun _ => [sampleA]) [] ["a.csv"] false).1
      = [cleanRow sampleA]
    ∧ (process_multiple_files (fun _ => [sampleA]) [] ["a.csv"] false).2 = [] := by
  decide

/-- C6 (amended): on an *incremental* run the tracker afterwards holds
exactly the previously consumed files plus the input files that were not
yet consumed and yielded at least one surviving record (a file yielding
zero valid rows stays unregistered, so a later re-run retries it); a
non-incremental run does not register anything. -/
theorem tracker_registers_contributing_files
    (readFile : String → List Transaction) (tracker files : List String) :
    (∀ f, f ∈ (process_multiple_files readFile tracker files true).2
        ↔ f ∈ tracker
          ∨ (f ∈ files ∧ f ∉ tracker ∧ process_file readFile f ≠ []))
    ∧ (process_multiple_files readFile tracker files false).2 = tracker :=
  ⟨fun f => pmf_tracker_incremental readFile tracker files f,
   pmf_tracker_nonincremental readFile tracker files⟩

/-- C3: ingestion is idempotent. After one incremental run on a store
satisfying the primary-key invariant, the stored ids are still pairwise
distinct (each unique id stored exactly once); running the same file list
again incrementally is a no-op (the resulting state is unchanged and zero
records are stored); in particular `process_multiple_files` returns an
empty frame at once when every input file is already consumed. -/
theorem ingestion_idempotent (readFile : String → List Transaction)
    (st : IngestState) (files : List String)
    (hnd : (st.store.map txKey).Nodup) :
    ((run_ingestion readFile st files true).1.store.map txKey).Nodup
    ∧ run_ingestion readFile (run_ingestion readFile st files true).1 files true
        = ((run_ingestion readFile st files true).1, 0)
    ∧ ((∀ f ∈ files, f ∈ st.tracker) →
        process_multiple_files readFile st.tracker files true
          = ([], st.tracker)) := by
  have hdf := pmf_keys_nodup readFile st.tracker files true
  have hsd := store_data_spec st.store
    (process_multiple_files readFile st.tracker files true).1 hnd hdf
  refine ⟨?_, ?_, ?_⟩
  · have hstore : (run_ingestion readFile st files true).1.store
        = st.store ++ newRecords st.store
            (process_multiple_files readFile st.tracker files true).1 := by
      show (store_data st.store
        (process_multiple_files readFile st.tracker files true).1).1
        = st.store ++ _
      rw [hsd.1]
    rw [hstore]
    exact hsd.2
  · apply run_ingestion_noop
    show process_multiple_files readFile
        (process_multiple_files readFile st.tracker files true).2 files true
      = ([], (process_multiple_files readFile st.tracker files true).2)
    exact pmf_second_run readFile st.tracker files
  · intro hall
    unfold process_multiple_files
    dsimp only
    simp only [eq_self_iff_true, if_true]
    have hnil : files.filter (fun g => !(st.tracker.contains g)) = [] := by
      apply List.filter_eq_nil_iff.mpr
      intro a ha
      simp [hall a ha]
    rw [if_pos (by rw [hnil]; rfl : (true
      && (files.filter (fun g => !(st.tracker.contains g))).isEmpty) = true)]

/-- Witness for C3 at a concrete deployment: an empty store and tracker,
two files yielding the same pair of valid records (so the cross-file dedup
and the second-run no-op are both exercised). -/
theorem ingestion_idempotent_witness :
    ((([] : List Transaction).map txKey).Nodup)
    ∧ (((run_ingestion (fun _ => [sampleA, sampleB]) ⟨[], []⟩
          ["a.csv", "b.csv"] true).1.store.map txKey).Nodup
       ∧ run_ingestion (fun _ => [sampleA, sampleB])
           (run_ingestion (fun _ => [sampleA, sampleB]) ⟨[], []⟩
             ["a.csv", "b.csv"] true).1 ["a.csv", "b.csv"] true
         = ((run_ingestion (fun _ => [sampleA, sampleB]) ⟨[], []⟩
             ["a.csv", "b.csv"] true).1, 0)
       ∧ ((∀ f ∈ ["a.csv", "b.csv"], f ∈ (⟨[], []⟩ : IngestState).tracker) →
           process_multiple_files (fun _ => [sampleA, sampleB])
             (⟨[], []⟩ : IngestState).tracker ["a.csv", "b.csv"] true
             = ([], (⟨[], []⟩ : IngestState).tracker))) :=
  ⟨by decide,
   ingestion_idempotent (fun _ => [sampleA, sampleB]) ⟨[], []⟩
     ["a.csv", "b.csv"] (by decide)⟩

end Pipeline
